import Mathlib

/-!
Shallow embedding of the video cache subsystem of `src/utils/videoUtils.ts`
(bundled in `src/App.tsx` of this repository).

Modelling conventions:
* The IndexedDB object store `videos` (keyPath `path`) is modelled as a list of
  `CacheEntry` records; real stores have pairwise distinct `path` keys, which
  appears below as a `Nodup` hypothesis where a proof needs it.
* Blobs are byte lists (`List Nat`); `blob.size` is the list length.
* Timestamps are stored as ISO-8601 UTC strings in the source and compared via
  `Date` arithmetic; since those strings order lexicographically exactly as the
  instants they denote, we model a timestamp as a `Nat` of milliseconds.
* `new Date() > expiryDate` with `expiryDate = timestamp + 30 days` becomes
  `now > timestamp + TTL_MS`.
* The eviction stop test `totalSize <= MAX_CACHE_SIZE * 0.8` is a float
  comparison of an integer against `max * 0.8`; for the values of `max` used
  (`500 * 1024 * 1024` and the spec example `100`) the IEEE-754 double product
  is exactly `4 * max / 5`, so the test is modelled as `5 * totalSize ≤ 4 * max`.
* Promise rejection / thrown errors become `Option`/`none`; the network is a
  parameter `net : String → Option (List Nat)` (`none` = non-ok response or
  transport failure).
-/

/-- One record of the `videos` object store:
`{ path, blob, size, timestamp }` as written by `cacheVideo`. -/
structure CacheEntry where
  path : String
  blob : List Nat
  size : Nat
  timestamp : Nat
deriving DecidableEq, Repr

/-- The contents of the IndexedDB `videos` store. -/
abbrev Store := List CacheEntry

/-- `MAX_CACHE_SIZE = 500 * 1024 * 1024` (500MB). -/
def MAX_CACHE_SIZE : Nat := 500 * 1024 * 1024

/-- `CACHE_EXPIRY_DAYS = 30`. -/
def CACHE_EXPIRY_DAYS : Nat := 30

/-- The 30-day TTL in milliseconds (the source adds 30 days to the stored
timestamp via `Date.setDate`). -/
def TTL_MS : Nat := CACHE_EXPIRY_DAYS * 24 * 60 * 60 * 1000

/-- `store.get(key)`: the record whose `path` equals `key`, if any. -/
def storeGet : Store → String → Option CacheEntry
  | [], _ => none
  | e :: rest, key => if e.path == key then some e else storeGet rest key

/-- `store.delete(key)`: remove the record with that key (no-op if absent). -/
def storeDelete (s : Store) (key : String) : Store :=
  s.filter fun e => !(e.path == key)

/-- `store.put(entry)`: overwrite any record with the same `path`. -/
def storePut (s : Store) (e : CacheEntry) : Store :=
  storeDelete s e.path ++ [e]

/-- Sum of the `size` fields (`totalSize += entry.size || 0`). -/
def totalSize (s : Store) : Nat :=
  (s.map fun e => e.size).sum

/-- Lexicographic order on the character lists of two strings, mirroring how
IndexedDB orders string keys (used only to break ties between equal
timestamps, as the index orders ties by primary key). -/
def charListLe : List Char → List Char → Bool
  | [], _ => true
  | _ :: _, [] => false
  | a :: as, b :: bs =>
    if a.toNat < b.toNat then true
    else if b.toNat < a.toNat then false
    else charListLe as bs

/-- The order in which `timestampIndex.getAll()` yields the entries:
ascending timestamp, ties by primary key `path`. -/
def entryLe (a b : CacheEntry) : Bool :=
  decide (a.timestamp < b.timestamp) ||
    (decide (a.timestamp = b.timestamp) && charListLe a.path.data b.path.data)

/-- `entryLe` as a relation, for use with `List.insertionSort`. -/
def entryRel (a b : CacheEntry) : Prop := entryLe a b = true

instance : DecidableRel entryRel := fun a b => by
  unfold entryRel; infer_instance

/-- The entry sequence produced by `timestampIndex.getAll()` (oldest first). -/
def sortEntries (s : Store) : Store :=
  s.insertionSort entryRel

/-- The keys deleted by the eviction loop of `cleanupCache`, walking the
timestamp-sorted entries with the running total: stop as soon as
`totalSize <= MAX_CACHE_SIZE * 0.8`, otherwise delete and subtract. -/
def evictDeleted (max : Nat) : List CacheEntry → Nat → List String
  | [], _ => []
  | e :: rest, total =>
    if 5 * total ≤ 4 * max then []
    else e.path :: evictDeleted max rest (total - e.size)

/-- `cleanupCache`, parameterised by the size limit: if the total size of all
entries exceeds `max`, delete the keys chosen by the eviction loop over the
timestamp-sorted entries; otherwise leave the store untouched. -/
def cleanupCacheAt (max : Nat) (s : Store) : Store :=
  let entries := sortEntries s
  let total := totalSize entries
  if total > max then
    let deleted := evictDeleted max entries total
    s.filter fun e => !(deleted.contains e.path)
  else s

/-- `cleanupCache` at the source's constant `MAX_CACHE_SIZE`. -/
def cleanupCache (s : Store) : Store :=
  cleanupCacheAt MAX_CACHE_SIZE s

/-- The record `cacheVideo` writes: `{ path, blob, size: blob.size,
timestamp: new Date().toISOString() }`. -/
def mkEntry (key : String) (blob : List Nat) (now : Nat) : CacheEntry :=
  { path := key, blob := blob, size := blob.length, timestamp := now }

/-- `cacheVideo(videoPath, blob)`: put the new record, then run
`cleanupCache`. -/
def cacheVideo (now : Nat) (s : Store) (key : String) (blob : List Nat) : Store :=
  cleanupCache (storePut s (mkEntry key blob now))

/-- `isVideoCached(videoPath)`: look the key up; on a hit, test expiry
(`new Date() > expiryDate`); an expired entry is deleted and `false`
returned, a fresh entry yields `true`. Returns the answer together with the
store left behind. -/
def isVideoCached (now : Nat) (s : Store) (key : String) : Bool × Store :=
  match storeGet s key with
  | none => (false, s)
  | some e =>
    if now > e.timestamp + TTL_MS then (false, storeDelete s key)
    else (true, s)

/-- `getCachedVideo(videoPath)`: the stored blob, or `none` for the rejected
promise when the key is absent. -/
def getCachedVideo (s : Store) (key : String) : Option (List Nat) :=
  (storeGet s key).map fun e => e.blob

/-- `fetchVideoWithCache(videoPath)`: consult `isVideoCached`; on a hit return
the cached blob, on a miss fetch from the network (`none` = thrown HTTP or
transport error), cache the result and return it. The returned store is the
state after the call. -/
def fetchVideoWithCache (now : Nat) (s : Store) (key : String)
    (net : String → Option (List Nat)) : Option (List Nat) × Store :=
  let c := isVideoCached now s key
  if c.fst then (getCachedVideo c.snd key, c.snd)
  else
    match net key with
    | none => (none, c.snd)
    | some blob => (some blob, cacheVideo now c.snd key blob)

/-- What `getCachedVideoUrl` hands back: an object URL over a blob, or a
direct network URL. -/
inductive VideoUrl where
  | objectUrl (blob : List Nat)
  | direct (url : String)
deriving DecidableEq, Repr

/-- `videoPath.replace(/^\/+/, '')`: strip every leading `/`. -/
def stripLeadingSlashes (p : String) : String :=
  ⟨p.data.dropWhile fun c => c == '/'⟩

/-- `getVideoUrl(videoPath)`: `API_ROOT_URL + '/' + normalizedPath`,
parameterised by the environment-derived root. -/
def getVideoUrl (root p : String) : String :=
  root ++ "/" ++ stripLeadingSlashes p

/-- `getCachedVideoUrl(videoPath)`: object URL over the fetched blob, or on
any failure the direct `getVideoUrl` fallback. -/
def getCachedVideoUrl (root : String) (now : Nat) (s : Store) (key : String)
    (net : String → Option (List Nat)) : VideoUrl × Store :=
  match fetchVideoWithCache now s key net with
  | (some blob, sAfter) => (VideoUrl.objectUrl blob, sAfter)
  | (none, sAfter) => (VideoUrl.direct (getVideoUrl root key), sAfter)

/-- `getFallbackVideoUrl(videoPath)`: the fixed base64 placeholder. -/
def getFallbackVideoUrl (_videoPath : String) : String :=
  "data:video/mp4;base64,AAAAIGZ0eXBpc29tAAACAGlzb21pc28yYXZjMW1wNDEAAAAIZnJlZQAAAGhtZGF0AAACmwYF//+p3EXpvebZSLeWLNgg2SPu73gyNjQgLSBjb3JlIDE0OCByMjkyMSA3YzVmYjQ2IC0gSC4yNjQvTVBFRy00IEFWQyBjb2RlYyAtIENvcHlsZWZ0IDIwMDMtMjAxNSAtIGh0dHA6Ly93d3cudmlkZW9sYW4ub3JnL3gyNjQuaHRtbCAtIG9wdGlvbnM6IGNhYmFjPTEgcmVmPTMgZGVibG9jaz0xOjA6MCBhbmFseXNlPTB4MzoweDExMyBtZT1oZXggc3VibWU9NyBwc3k9MSBwc3lfcmQ9MS4wMDowLjAwIG1peGVkX3JlZj0xIG1lX3JhbmdlPTE2IGNocm9tYV9tZT0xIHRyZWxsaXM9MSA4eDhkY3Q9MSBjcWw9MCBkZWJsb2NrY3FsPTAgY3FsbWluZGFjdD0wIGxvY2tpbmd3aWR0aD0yNjUgbG9ja2hlaWdodD0yMCBkaXJlY3Q9MSB3aWR0aD0xOTIgY3JvcF90b3A9MCB0b3A9MCBsZWZ0PTAgY3JvcF9sZWZ0PTAgY3JvcF9yaWdodD0wIHJpZ2h0PTAgY3JvcF9ib3R0b209MCBib3R0b209MCB2dWNfY3FsPTAgbWV4dHJhPTAgY3JvcF9oZWlnaHQ9MCBjaHJvbWFfcXVhbnQ9MCBxdWFudD0wIGZpbGVzaXplPTAgd2VpZ2h0PTE="

/-- The record returned by `getCacheStats`. -/
structure CacheStats where
  totalSize : Nat
  entryCount : Nat
  isSupported : Bool
deriving DecidableEq, Repr

/-- `getCacheStats()`: `none` stands for an environment where the store could
not be opened or read (the `catch`/`onerror` paths); otherwise the counts are
reduced over the entries exactly as in the source
(`entries.reduce((sum, entry) => sum + (entry.size || 0), 0)`). -/
def getCacheStats : Option Store → CacheStats
  | none => { totalSize := 0, entryCount := 0, isSupported := false }
  | some s =>
    { totalSize := s.foldl (fun sum e => sum + e.size) 0
      entryCount := s.length
      isSupported := true }

/-! ### Helper lemmas -/

theorem totalSize_cons (e : CacheEntry) (s : Store) :
    totalSize (e :: s) = e.size + totalSize s := by
  simp [totalSize]

theorem sortEntries_perm (s : Store) : (sortEntries s).Perm s :=
  List.perm_insertionSort entryRel s

theorem totalSize_eq_of_perm {l l2 : Store} (h : l.Perm l2) :
    totalSize l = totalSize l2 := by
  unfold totalSize
  exact (h.map fun e => e.size).sum_eq

theorem storeGet_eq_some {s : Store} {key : String} {x : CacheEntry}
    (h : storeGet s key = some x) : x ∈ s ∧ x.path = key := by
  induction s with
  | nil => simp [storeGet] at h
  | cons e rest ih =>
    by_cases hp : e.path == key
    · rw [storeGet, if_pos hp] at h
      obtain rfl : e = x := by injection h
      exact ⟨List.mem_cons_self _ _, by simpa using hp⟩
    · rw [storeGet, if_neg hp] at h
      obtain ⟨hmem, hpath⟩ := ih h
      exact ⟨List.mem_cons_of_mem _ hmem, hpath⟩

theorem storeGet_storeDelete_self (s : Store) (key : String) :
    storeGet (storeDelete s key) key = none := by
  induction s with
  | nil => rfl
  | cons e rest ih =>
    by_cases hp : e.path == key
    · simpa [storeDelete, List.filter_cons, hp] using ih
    · simpa [storeDelete, List.filter_cons, hp, storeGet] using ih

theorem eq_of_mem_storePut {s : Store} {en x : CacheEntry}
    (hx : x ∈ storePut s en) (hp : x.path = en.path) : x = en := by
  rcases List.mem_append.mp hx with hl | hr
  · have hpred := (List.mem_filter.mp hl).2
    rw [hp] at hpred
    simp at hpred
  · simpa using hr

theorem nodup_storePut (s : Store) (en : CacheEntry)
    (h : (s.map fun e => e.path).Nodup) :
    ((storePut s en).map fun e => e.path).Nodup := by
  unfold storePut storeDelete
  rw [List.map_append]
  refine List.Nodup.append ?_ (by simp) ?_
  · exact List.Nodup.sublist (List.Sublist.map _ (List.filter_sublist s)) h
  · intro a ha hb
    simp only [List.map_cons, List.map_nil, List.mem_singleton] at hb
    obtain ⟨x, hxmem, hxpath⟩ := List.mem_map.mp ha
    have hpred := (List.mem_filter.mp hxmem).2
    rw [hxpath, hb] at hpred
    simp at hpred

theorem mem_of_mem_cleanup {max : Nat} {t : Store} {x : CacheEntry}
    (h : x ∈ cleanupCacheAt max t) : x ∈ t := by
  unfold cleanupCacheAt at h
  by_cases hc : totalSize (sortEntries t) > max
  · simp only [if_pos hc] at h
    exact List.mem_of_mem_filter h
  · simpa only [if_neg hc] using h

theorem evictDeleted_take (max : Nat) (l : List CacheEntry) :
    ∃ k, k ≤ l.length ∧
      evictDeleted max l (totalSize l) = ((l.take k).map fun e => e.path) ∧
      (5 * totalSize (l.drop k) ≤ 4 * max ∨ l.drop k = []) ∧
      ∀ j, j < k → 4 * max < 5 * totalSize (l.drop j) := by
  induction l with
  | nil =>
    exact ⟨0, Nat.le_refl 0, rfl, Or.inr rfl, fun j hj => absurd hj (Nat.not_lt_zero j)⟩
  | cons e rest ih =>
    by_cases h : 5 * totalSize (e :: rest) ≤ 4 * max
    · refine ⟨0, Nat.zero_le _, ?_, Or.inl (by simpa using h),
        fun j hj => absurd hj (Nat.not_lt_zero j)⟩
      simp [evictDeleted, if_pos h]
    · obtain ⟨k, hk, hdel, hstop, hmin⟩ := ih
      have hsub : totalSize (e :: rest) - e.size = totalSize rest := by
        rw [totalSize_cons]
        omega
      refine ⟨k + 1, Nat.succ_le_succ hk, ?_, by simpa using hstop, ?_⟩
      · rw [List.take_succ_cons, List.map_cons]
        simp only [evictDeleted, if_neg h, hsub, hdel]
      · intro j hj
        cases j with
        | zero =>
          simpa using Nat.lt_of_not_le h
        | succ j =>
          simpa using hmin j (Nat.lt_of_succ_lt_succ hj)

theorem filter_not_mem_take (l : List CacheEntry) (k : Nat)
    (h : (l.map fun e => e.path).Nodup) :
    (l.filter fun e => !(((l.take k).map fun e => e.path).contains e.path)) = l.drop k := by
  induction l generalizing k with
  | nil => simp
  | cons e rest ih =>
    rw [List.map_cons, List.nodup_cons] at h
    cases k with
    | zero =>
      simp only [List.take_zero, List.map_nil, List.drop_zero]
      refine List.filter_eq_self.mpr fun x _ => by simp
    | succ k =>
      rw [List.take_succ_cons, List.map_cons, List.drop_succ_cons]
      rw [List.filter_cons]
      have hself : (((e.path :: ((rest.take k).map fun e => e.path)).contains e.path) : Bool)
          = true := by simp
      rw [hself]
      simp only [Bool.not_true, Bool.false_eq_true, if_false]
      rw [List.filter_congr (fun x hx => ?_)]
      · exact ih k h.2
      · have hne : x.path ≠ e.path := by
          intro hcontra
          exact h.1 (hcontra ▸ List.mem_map_of_mem (fun e => e.path) hx)
        simp [List.contains_cons, hne]

theorem cleanupCacheAt_of_le (max : Nat) (s : Store) (h : totalSize s ≤ max) :
    cleanupCacheAt max s = s := by
  have hts : totalSize (sortEntries s) = totalSize s :=
    totalSize_eq_of_perm (sortEntries_perm s)
  have h2 : ¬ (totalSize (sortEntries s) > max) := by rw [hts]; omega
  simp [cleanupCacheAt, if_neg h2]

theorem cleanupCacheAt_big (max : Nat) (s : Store)
    (hN : (s.map fun e => e.path).Nodup) (hbig : totalSize s > max) :
    5 * totalSize (cleanupCacheAt max s) ≤ 4 * max ∨ cleanupCacheAt max s = [] := by
  have hperm := sortEntries_perm s
  have hts : totalSize (sortEntries s) = totalSize s := totalSize_eq_of_perm hperm
  have hN2 : ((sortEntries s).map fun e => e.path).Nodup := by
    exact ((hperm.map fun e => e.path).nodup_iff).mpr hN
  have hbig2 : totalSize (sortEntries s) > max := by rw [hts]; exact hbig
  obtain ⟨k, hk, hdel, hstop, hmin⟩ := evictDeleted_take max (sortEntries s)
  have hres : cleanupCacheAt max s =
      s.filter fun e => !((((sortEntries s).take k).map fun e => e.path).contains e.path) := by
    simp only [cleanupCacheAt, if_pos hbig2, hdel]
  have hresPerm : (cleanupCacheAt max s).Perm ((sortEntries s).drop k) := by
    have h1 := (hperm.filter
      fun e => !((((sortEntries s).take k).map fun e => e.path).contains e.path)).symm
    rw [filter_not_mem_take (sortEntries s) k hN2] at h1
    rw [hres]
    exact h1
  rcases hstop with hle | hnil
  · left
    rw [totalSize_eq_of_perm hresPerm]
    exact hle
  · right
    rw [hnil] at hresPerm
    exact hresPerm.eq_nil

theorem head_all_dropWhile {α : Type} (p : α → Bool) (l : List α) :
    ((l.dropWhile p).head?.all fun c => !(p c)) = true := by
  induction l with
  | nil => rfl
  | cons a as ih =>
    cases h : p a with
    | true => simpa [List.dropWhile, h] using ih
    | false => simp [List.dropWhile, h]

theorem exists_replicate_dropWhile (l : List Char) :
    ∃ k, l = List.replicate k '/' ++ l.dropWhile (fun c => c == '/') := by
  induction l with
  | nil => exact ⟨0, rfl⟩
  | cons a as ih =>
    by_cases h : a = '/'
    · obtain ⟨k, hk⟩ := ih
      subst h
      refine ⟨k + 1, ?_⟩
      have hdw : (('/' : Char) :: as).dropWhile (fun c => c == '/') =
          as.dropWhile (fun c => c == '/') := by
        simp [List.dropWhile]
      rw [hdw, List.replicate_succ, List.cons_append]
      exact congrArg _ hk
    · refine ⟨0, ?_⟩
      have hb : (a == '/') = false := by simp [h]
      have hdw : ((a :: as).dropWhile (fun c => c == '/')) = a :: as := by
        simp [List.dropWhile, hb]
      simp [hdw]

theorem foldl_add_size (s : Store) :
    ∀ a : Nat, s.foldl (fun sum e => sum + e.size) a = a + totalSize s := by
  induction s with
  | nil =>
    intro a
    simp [totalSize]
  | cons e rest ih =>
    intro a
    rw [List.foldl_cons, ih (a + e.size), totalSize_cons]
    omega

/-! ### Claim theorems -/

/-- Claim C1, counterexample to the claim as stated: `isVideoCached` is not
side-effect-free — on a store holding one entry for `"a"` stored at time `0`,
querying at time `TTL_MS + 1` (past the 30-day TTL) changes the store
contents: the expired entry is deleted. -/
theorem c1_isVideoCached_mutates :
    (isVideoCached (TTL_MS + 1)
        [{ path := "a", blob := [], size := 0, timestamp := 0 }] "a").snd ≠
      [{ path := "a", blob := [], size := 0, timestamp := 0 }] := by
  decide

/-- Claim C1 (amended): `isVideoCached(key)` returns `true` exactly when an
entry for `key` exists and is not past the 30-day TTL; but it is not
side-effect-free: when the entry is present and expired it deletes that entry
from the store (the key is gone afterwards), and it leaves the store
unchanged only when it answers `true` or the key is absent. -/
theorem c1_isVideoCached_spec (now : Nat) (s : Store) (key : String) :
    ((isVideoCached now s key).fst = true ↔
      ∃ e, storeGet s key = some e ∧ now ≤ e.timestamp + TTL_MS) ∧
    (∀ e, storeGet s key = some e → now > e.timestamp + TTL_MS →
      (isVideoCached now s key).snd = storeDelete s key ∧
      storeGet (isVideoCached now s key).snd key = none) ∧
    ((isVideoCached now s key).fst = true ∨ storeGet s key = none →
      (isVideoCached now s key).snd = s) := by
  cases hget : storeGet s key with
  | none =>
    refine ⟨by simp [isVideoCached, hget], ?_, ?_⟩
    · intro e he
      exact absurd he (by simp)
    · intro _
      simp [isVideoCached, hget]
  | some e =>
    by_cases hexp : now > e.timestamp + TTL_MS
    · refine ⟨?_, ?_, ?_⟩
      · simp only [isVideoCached, hget, if_pos hexp]
        constructor
        · intro h
          exact absurd h (by simp)
        · rintro ⟨e2, he2, hle⟩
          obtain rfl : e = e2 := by injection he2
          omega
      · intro e2 he2 _
        obtain rfl : e = e2 := by injection he2
        exact ⟨by simp [isVideoCached, hget, if_pos hexp],
          by simp [isVideoCached, hget, if_pos hexp, storeGet_storeDelete_self]⟩
      · rintro (h | h)
        · simp [isVideoCached, hget, if_pos hexp] at h
        · exact absurd h (by simp)
    · refine ⟨?_, ?_, ?_⟩
      · simp only [isVideoCached, hget, if_neg hexp, true_iff]
        exact ⟨e, rfl, by omega⟩
      · intro e2 he2 hexp2
        obtain rfl : e = e2 := by injection he2
        exact absurd hexp2 hexp
      · intro _
        simp [isVideoCached, hget, if_neg hexp]

/-- Witness for C1: on a concrete store holding an expired entry for `"a"`,
the hypotheses of `c1_isVideoCached_spec` hold and the expired entry is gone
after the query. -/
theorem c1_isVideoCached_spec_witness :
    storeGet [{ path := "a", blob := [], size := 0, timestamp := 0 }] "a" =
      some { path := "a", blob := [], size := 0, timestamp := 0 } ∧
    TTL_MS + 1 > (0 : Nat) + TTL_MS ∧
    storeGet (isVideoCached (TTL_MS + 1)
        [{ path := "a", blob := [], size := 0, timestamp := 0 }] "a").snd "a" = none :=
  ⟨by decide, by omega,
    ((c1_isVideoCached_spec (TTL_MS + 1)
        [{ path := "a", blob := [], size := 0, timestamp := 0 }] "a").2.1
      { path := "a", blob := [], size := 0, timestamp := 0 }
      (by decide) (by decide)).2⟩

/-- Claim C2: for a well-formed store (distinct keys) and any successful
`cacheVideo(key, blob)` — which ends with its triggered `cleanupCache` run —
the total of the `size` fields afterwards is at most
`MAX_CACHE_SIZE = 500 * 1024 * 1024`; and whenever the cleanup actually had
to delete (the put pushed the total past `MAX_CACHE_SIZE`), the resulting
total is at most `0.8 * MAX_CACHE_SIZE` (stated exactly as
`5 * total ≤ 4 * MAX_CACHE_SIZE`) or the store is empty. -/
theorem c2_cacheVideo_size_invariant (now : Nat) (s : Store) (key : String)
    (blob : List Nat) (hN : (s.map fun e => e.path).Nodup) :
    totalSize (cacheVideo now s key blob) ≤ MAX_CACHE_SIZE ∧
    (totalSize (storePut s (mkEntry key blob now)) > MAX_CACHE_SIZE →
      5 * totalSize (cacheVideo now s key blob) ≤ 4 * MAX_CACHE_SIZE ∨
      cacheVideo now s key blob = []) := by
  have hNt : ((storePut s (mkEntry key blob now)).map fun e => e.path).Nodup :=
    nodup_storePut s _ hN
  have hcv : cacheVideo now s key blob =
      cleanupCacheAt MAX_CACHE_SIZE (storePut s (mkEntry key blob now)) := rfl
  by_cases hbig : totalSize (storePut s (mkEntry key blob now)) > MAX_CACHE_SIZE
  · have h2 := cleanupCacheAt_big MAX_CACHE_SIZE _ hNt hbig
    rw [← hcv] at h2
    refine ⟨?_, fun _ => h2⟩
    rcases h2 with h | h
    · omega
    · rw [h]
      simp [totalSize]
  · have heq : cacheVideo now s key blob = storePut s (mkEntry key blob now) := by
      rw [hcv]
      exact cleanupCacheAt_of_le _ _ (by omega)
    refine ⟨by rw [heq]; omega, fun hcontra => absurd hcontra hbig⟩

/-- Witness for C2: caching a one-byte blob into the empty store. -/
theorem c2_cacheVideo_size_invariant_witness :
    (([] : Store).map fun e => e.path).Nodup ∧
    (totalSize (cacheVideo 5 [] "k" [0]) ≤ MAX_CACHE_SIZE ∧
      (totalSize (storePut [] (mkEntry "k" [0] 5)) > MAX_CACHE_SIZE →
        5 * totalSize (cacheVideo 5 [] "k" [0]) ≤ 4 * MAX_CACHE_SIZE ∨
        cacheVideo 5 [] "k" [0] = [])) :=
  ⟨by decide, c2_cacheVideo_size_invariant 5 [] "k" [0] (by decide)⟩

/-- Claim C3: on a well-formed store whose entries are listed in strictly
increasing timestamp order and whose total size exceeds `MAX_CACHE_SIZE`,
`cleanupCache` deletes exactly a prefix of the entries — i.e. strictly
age-ascending, oldest first — and the prefix length is minimal: while an
older entry was still being deleted the running remainder was still above
the `0.8 * MAX_CACHE_SIZE` target (stated as `4 * MAX_CACHE_SIZE <
5 * total`), and the remaining suffix is at or below the target or empty. -/
theorem c3_cleanupCache_oldest_first (s : Store)
    (hinc : s.Pairwise fun a b => a.timestamp < b.timestamp)
    (hN : (s.map fun e => e.path).Nodup)
    (hbig : totalSize s > MAX_CACHE_SIZE) :
    ∃ k, cleanupCache s = s.drop k ∧
      (5 * totalSize (s.drop k) ≤ 4 * MAX_CACHE_SIZE ∨ s.drop k = []) ∧
      ∀ j, j < k → 4 * MAX_CACHE_SIZE < 5 * totalSize (s.drop j) := by
  have hsorted : List.Sorted entryRel s := by
    refine hinc.imp ?_
    intro a b hab
    unfold entryRel entryLe
    simp [hab]
  have hse : sortEntries s = s := by
    unfold sortEntries
    exact hsorted.insertionSort_eq
  obtain ⟨k, hk, hdel, hstop, hmin⟩ := evictDeleted_take MAX_CACHE_SIZE s
  refine ⟨k, ?_, hstop, hmin⟩
  have hres : cleanupCache s =
      s.filter fun e => !(((s.take k).map fun e => e.path).contains e.path) := by
    simp only [cleanupCache, cleanupCacheAt, hse, if_pos hbig, hdel]
  rw [hres, filter_not_mem_take s k hN]

/-- Witness for C3: two 300MB entries with timestamps 1 and 2 exceed the
500MB budget; the theorem applies. -/
theorem c3_cleanupCache_oldest_first_witness :
    ([{ path := "x", blob := [], size := 314572800, timestamp := 1 },
      { path := "y", blob := [], size := 314572800, timestamp := 2 }] :
        Store).Pairwise (fun a b => a.timestamp < b.timestamp) ∧
    (([{ path := "x", blob := [], size := 314572800, timestamp := 1 },
       { path := "y", blob := [], size := 314572800, timestamp := 2 }] :
        Store).map fun e => e.path).Nodup ∧
    totalSize [{ path := "x", blob := [], size := 314572800, timestamp := 1 },
      { path := "y", blob := [], size := 314572800, timestamp := 2 }] >
      MAX_CACHE_SIZE ∧
    ∃ k, cleanupCache
        [{ path := "x", blob := [], size := 314572800, timestamp := 1 },
         { path := "y", blob := [], size := 314572800, timestamp := 2 }] =
        ([{ path := "x", blob := [], size := 314572800, timestamp := 1 },
          { path := "y", blob := [], size := 314572800, timestamp := 2 }] :
          Store).drop k ∧
      (5 * totalSize (([{ path := "x", blob := [], size := 314572800, timestamp := 1 },
          { path := "y", blob := [], size := 314572800, timestamp := 2 }] :
          Store).drop k) ≤ 4 * MAX_CACHE_SIZE ∨
        ([{ path := "x", blob := [], size := 314572800, timestamp := 1 },
          { path := "y", blob := [], size := 314572800, timestamp := 2 }] :
          Store).drop k = []) ∧
      ∀ j, j < k → 4 * MAX_CACHE_SIZE <
        5 * totalSize (([{ path := "x", blob := [], size := 314572800, timestamp := 1 },
          { path := "y", blob := [], size := 314572800, timestamp := 2 }] :
          Store).drop j) :=
  ⟨by decide, by decide, by decide,
    c3_cleanupCache_oldest_first _ (by decide) (by decide) (by decide)⟩

/-- Claim C6: the worked eviction example at `MAX_BYTES = 100`. With
A(`storedAt=1`, size 40) and B(`storedAt=2`, size 40) in the store, putting
C (size 40, timestamp 3) brings the total to 120 > 100; eviction deletes
exactly A, the total falls to 80 = `0.8 * 100`, eviction stops, and the
final contents are exactly B and C. -/
theorem c6_worked_eviction_example :
    totalSize (storePut
      [{ path := "A", blob := List.replicate 40 0, size := 40, timestamp := 1 },
       { path := "B", blob := List.replicate 40 0, size := 40, timestamp := 2 }]
      (mkEntry "C" (List.replicate 40 0) 3)) = 120 ∧
    cleanupCacheAt 100 (storePut
      [{ path := "A", blob := List.replicate 40 0, size := 40, timestamp := 1 },
       { path := "B", blob := List.replicate 40 0, size := 40, timestamp := 2 }]
      (mkEntry "C" (List.replicate 40 0) 3)) =
      [{ path := "B", blob := List.replicate 40 0, size := 40, timestamp := 2 },
       { path := "C", blob := List.replicate 40 0, size := 40, timestamp := 3 }] ∧
    totalSize
      [{ path := "B", blob := List.replicate 40 0, size := 40, timestamp := 2 },
       { path := "C", blob := List.replicate 40 0, size := 40, timestamp := 3 }] = 80 := by
  decide

/-- Claim C4: if the stored entry for `key` satisfies
`now - storedAt > TTL_MS` (30 days), then `fetchVideoWithCache(key)` at time
`now` does not serve the old stored blob — its result is exactly the
network's answer — and afterwards the expired entry is no longer in the
store. -/
theorem c4_fetchVideo_ttl_purge (now : Nat) (s : Store) (key : String)
    (e : CacheEntry) (net : String → Option (List Nat))
    (he : storeGet s key = some e) (hexp : now - e.timestamp > TTL_MS) :
    (fetchVideoWithCache now s key net).fst = net key ∧
    storeGet (fetchVideoWithCache now s key net).snd key ≠ some e := by
  have hgt : now > e.timestamp + TTL_MS := by omega
  have hc : isVideoCached now s key = (false, storeDelete s key) := by
    simp [isVideoCached, he, if_pos hgt]
  cases hnet : net key with
  | none =>
    refine ⟨by simp [fetchVideoWithCache, hc, hnet], ?_⟩
    have hred : (fetchVideoWithCache now s key net).snd = storeDelete s key := by
      simp [fetchVideoWithCache, hc, hnet]
    rw [hred, storeGet_storeDelete_self]
    simp
  | some blob =>
    refine ⟨by simp [fetchVideoWithCache, hc, hnet], ?_⟩
    have hred : (fetchVideoWithCache now s key net).snd =
        cacheVideo now (storeDelete s key) key blob := by
      simp [fetchVideoWithCache, hc, hnet]
    rw [hred]
    intro hcontra
    obtain ⟨hmem, hpath⟩ := storeGet_eq_some hcontra
    have hmem2 : e ∈ storePut (storeDelete s key) (mkEntry key blob now) :=
      mem_of_mem_cleanup hmem
    have hxe : e = mkEntry key blob now :=
      eq_of_mem_storePut hmem2 (by simp [mkEntry, hpath])
    have ht : e.timestamp = now := by
      rw [hxe]
      simp [mkEntry]
    omega

/-- Witness for C4: an entry for `"a"` stored at time `0`, queried at
`TTL_MS + 5` against a failing network. -/
theorem c4_fetchVideo_ttl_purge_witness :
    storeGet [{ path := "a", blob := [7], size := 1, timestamp := 0 }] "a" =
      some { path := "a", blob := [7], size := 1, timestamp := 0 } ∧
    TTL_MS + 5 - ({ path := "a", blob := [7], size := 1, timestamp := 0 } :
      CacheEntry).timestamp > TTL_MS ∧
    ((fetchVideoWithCache (TTL_MS + 5)
        [{ path := "a", blob := [7], size := 1, timestamp := 0 }] "a"
        (fun _ => none)).fst = (fun _ => none) "a" ∧
      storeGet (fetchVideoWithCache (TTL_MS + 5)
        [{ path := "a", blob := [7], size := 1, timestamp := 0 }] "a"
        (fun _ => none)).snd "a" ≠
        some { path := "a", blob := [7], size := 1, timestamp := 0 }) :=
  ⟨by decide, by decide,
    c4_fetchVideo_ttl_purge (TTL_MS + 5)
      [{ path := "a", blob := [7], size := 1, timestamp := 0 }] "a"
      { path := "a", blob := [7], size := 1, timestamp := 0 }
      (fun _ => none) (by decide) (by decide)⟩

/-- Claim C5: for a key absent from the cache with a failing network fetch
(non-ok response or transport failure), `fetchVideoWithCache` fails (the
error propagates) and the store is unchanged — nothing is written; and
`getCachedVideoUrl` catches the failure and returns the direct resolved URL
`getVideoUrl(key)` instead of throwing. -/
theorem c5_fallback_chain (root : String) (now : Nat) (s : Store) (key : String)
    (net : String → Option (List Nat))
    (habsent : storeGet s key = none) (hnet : net key = none) :
    fetchVideoWithCache now s key net = (none, s) ∧
    getCachedVideoUrl root now s key net =
      (VideoUrl.direct (getVideoUrl root key), s) := by
  have hc : isVideoCached now s key = (false, s) := by
    simp [isVideoCached, habsent]
  have hf : fetchVideoWithCache now s key net = (none, s) := by
    simp [fetchVideoWithCache, hc, hnet]
  exact ⟨hf, by simp [getCachedVideoUrl, hf]⟩

/-- Witness for C5: the spec's own example — empty cache, fetch of
`"clips/missing.mp4"` fails (HTTP 404 modelled as `none`). -/
theorem c5_fallback_chain_witness :
    storeGet ([] : Store) "clips/missing.mp4" = none ∧
    (fun (_ : String) => (none : Option (List Nat))) "clips/missing.mp4" = none ∧
    (fetchVideoWithCache 0 [] "clips/missing.mp4" (fun _ => none) =
        (none, ([] : Store)) ∧
      getCachedVideoUrl "http://localhost:8000" 0 [] "clips/missing.mp4"
        (fun _ => none) =
        (VideoUrl.direct (getVideoUrl "http://localhost:8000" "clips/missing.mp4"),
          ([] : Store))) :=
  ⟨rfl, rfl,
    c5_fallback_chain "http://localhost:8000" 0 [] "clips/missing.mp4"
      (fun _ => none) rfl rfl⟩

/-- Claim C7: after `cacheVideo(key, blob)` at time `now`, provided the
triggered eviction did not remove the key, the store holds exactly the entry
`{path := key, blob, size := blob.length, timestamp := now}` (fully
replacing any prior entry for `key`); and any later read through
`fetchVideoWithCache` before the TTL elapses returns exactly the stored blob
without touching the network or the store. -/
theorem c7_cacheVideo_roundTrip (now later : Nat) (s : Store) (key : String)
    (blob : List Nat) (net : String → Option (List Nat))
    (hkept : storeGet (cacheVideo now s key blob) key ≠ none)
    (hfresh : later ≤ now + TTL_MS) :
    storeGet (cacheVideo now s key blob) key = some (mkEntry key blob now) ∧
    fetchVideoWithCache later (cacheVideo now s key blob) key net =
      (some blob, cacheVideo now s key blob) := by
  obtain ⟨x, hx⟩ : ∃ x, storeGet (cacheVideo now s key blob) key = some x := by
    cases hgot : storeGet (cacheVideo now s key blob) key with
    | none => exact absurd hgot hkept
    | some x => exact ⟨x, rfl⟩
  obtain ⟨hmem, hpath⟩ := storeGet_eq_some hx
  have hmem2 : x ∈ storePut s (mkEntry key blob now) := mem_of_mem_cleanup hmem
  have hxe : x = mkEntry key blob now :=
    eq_of_mem_storePut hmem2 (by simp [mkEntry, hpath])
  rw [hxe] at hx
  refine ⟨hx, ?_⟩
  have hnotexp : ¬ (later > (mkEntry key blob now).timestamp + TTL_MS) := by
    simp only [mkEntry]
    omega
  have hc : isVideoCached later (cacheVideo now s key blob) key =
      (true, cacheVideo now s key blob) := by
    simp [isVideoCached, hx, if_neg hnotexp]
  simp [fetchVideoWithCache, hc, getCachedVideo, hx, mkEntry]

/-- Witness for C7: caching a two-byte blob into the empty store and reading
it back at the same instant. -/
theorem c7_cacheVideo_roundTrip_witness :
    storeGet (cacheVideo 0 [] "a" [1, 2]) "a" ≠ none ∧
    (0 : Nat) ≤ 0 + TTL_MS ∧
    (storeGet (cacheVideo 0 [] "a" [1, 2]) "a" = some (mkEntry "a" [1, 2] 0) ∧
      fetchVideoWithCache 0 (cacheVideo 0 [] "a" [1, 2]) "a" (fun _ => none) =
        (some [1, 2], cacheVideo 0 [] "a" [1, 2])) :=
  ⟨by decide, by decide,
    c7_cacheVideo_roundTrip 0 0 [] "a" [1, 2] (fun _ => none)
      (by decide) (by decide)⟩

/-- Claim C8: `getVideoUrl(path)` is the configured root, a single `/`, and
the path with all leading `/` characters removed: the stripped remainder
does not begin with `/`, the original path is exactly some run of `/`
followed by that remainder, and the result joins them once. -/
theorem c8_getVideoUrl_spec (root p : String) :
    ∃ k, p.data = List.replicate k '/' ++ (stripLeadingSlashes p).data ∧
      ((stripLeadingSlashes p).data.head?.all fun c => !(c == '/')) = true ∧
      getVideoUrl root p = root ++ "/" ++ stripLeadingSlashes p := by
  obtain ⟨k, hk⟩ := exists_replicate_dropWhile p.data
  exact ⟨k, hk, head_all_dropWhile _ _, rfl⟩

/-- Claim C9: `getCacheStats` never fails: when the persistent store cannot
be opened or read it reports `isSupported = false` with both counts zero,
and on a readable store it reports `isSupported = true`, `totalSize` the sum
of the entries' `size` fields and `entryCount` the number of entries. -/
theorem c9_getCacheStats_spec :
    getCacheStats none = { totalSize := 0, entryCount := 0, isSupported := false } ∧
    ∀ s : Store, getCacheStats (some s) =
      { totalSize := totalSize s, entryCount := s.length, isSupported := true } := by
  refine ⟨rfl, fun s => ?_⟩
  simp only [getCacheStats]
  rw [foldl_add_size s 0, Nat.zero_add]

/-- Claim C10: `getFallbackVideoUrl` ignores its path argument — every two
inputs map to the same fixed base64 data URL — and it is total. -/
theorem c10_getFallbackVideoUrl_const (p q : String) :
    getFallbackVideoUrl p = getFallbackVideoUrl q := rfl
